import Mathlib

/-!
Verification development for the `ZoteroEntries` class of `python3/zotero.py`.

Python strings are embedded as `List Char`; Python dictionaries (which keep
insertion order) as association lists where assignment to a present key
updates the value in place and assignment to a new key appends at the end.
Raised exceptions (`KeyError`, `IndexError`, `TypeError`) are embedded by
making the corresponding operation return `none : Option _`.
-/

namespace Zotero

/-- Embedding of Python strings. -/
abbrev Str := List Char

/-! ## Insertion-ordered maps (Python `dict`) -/

/-- Lookup (`m[k]` returning `some`, raising `KeyError` embedded as `none`). -/
def aget? {κ α : Type} [DecidableEq κ] : List (κ × α) → κ → Option α
  | [], _ => none
  | (k', v) :: rest, k => if k' = k then some v else aget? rest k

/-- Assignment `m[k] = v`: update in place when the key is present,
append at the end when it is new (Python insertion order). -/
def aset {κ α : Type} [DecidableEq κ] : List (κ × α) → κ → α → List (κ × α)
  | [], k, v => [(k, v)]
  | (k', v') :: rest, k, v =>
      if k' = k then (k, v) :: rest else (k', v') :: aset rest k v

/-- Removal `m.pop(k)` of the (unique) entry for `k`, if present. -/
def apop {κ α : Type} [DecidableEq κ] : List (κ × α) → κ → List (κ × α)
  | [], _ => []
  | (k', v') :: rest, k => if k' = k then rest else (k', v') :: apop rest k

/-! ## Python string operations -/

/-- Lowercase a string (`s.lower()`, modelled for the ASCII range). -/
def pyLower (s : Str) : Str := s.map Char.toLower

/-- Index of the first occurrence of `pat` as a contiguous substring. -/
def subIdx? (pat : Str) : Str → Option Nat
  | [] => if pat.isPrefixOf ([] : Str) then some 0 else none
  | c :: rest =>
      if pat.isPrefixOf (c :: rest) then some 0
      else (subIdx? pat rest).map (· + 1)

/-- Python `hay.find(pat)`: first index of `pat` in `hay`, `-1` if absent. -/
def pyFind (hay pat : Str) : Int :=
  match subIdx? pat hay with
  | some n => (n : Int)
  | none => -1

/-- Replace every non-overlapping occurrence of `pat` (leftmost-first) by
`rep`, as `re.sub` does for a pattern with no metacharacters.  The fuel
argument of `replaceAux` is the length of the subject, which bounds the
number of steps. -/
def replaceAux (pat rep : Str) : Nat → Str → Str
  | _, [] => []
  | 0, s => s
  | fuel + 1, c :: rest =>
      if pat ≠ [] ∧ pat.isPrefixOf (c :: rest) then
        rep ++ replaceAux pat rep fuel ((c :: rest).drop pat.length)
      else
        c :: replaceAux pat rep fuel rest

def pyReplaceAll (s pat rep : Str) : Str := replaceAux pat rep s.length s

/-- Python `str.title()` for the ASCII range: uppercase a letter that does not
follow a letter, lowercase one that does. -/
def pyTitleAux : Bool → Str → Str
  | _, [] => []
  | prevAlpha, c :: rest =>
      (if c.isAlpha then (if prevAlpha then c.toLower else c.toUpper) else c)
        :: pyTitleAux c.isAlpha rest

def pyTitle (s : Str) : Str := pyTitleAux false s

/-- Word characters of `re`'s `\w` (modelled for the ASCII range). -/
def pyIsWord (c : Char) : Bool := c.isAlphanum || c = '_'

/-- Embedding of `re.sub('\W', '', s)`. -/
def filterWord (s : Str) : Str := s.filter pyIsWord

/-- Embedding of `re.sub(' ', '', s)`: remove every space. -/
def removeSpaces (s : Str) : Str := s.filter (· ≠ ' ')

/-- Embedding of `re.sub('[class].*', '', s)` for a character class `p`:
`.` does not match a newline, so every match runs from a class character to
the end of its line, and `re.sub` removes all such runs. -/
def cutLinesF (p : Char → Bool) : Nat → Str → Str
  | _, [] => []
  | 0, s => s
  | fuel + 1, c :: rest =>
      if p c then cutLinesF p fuel (rest.dropWhile (· ≠ '\n'))
      else c :: cutLinesF p fuel rest

def cutLines (p : Char → Bool) (s : Str) : Str := cutLinesF p s.length s

/-- Python `s.split(sep)` for a one-character separator. -/
def pySplitAux (sep : Char) : Str → Str → List Str
  | [], cur => [cur.reverse]
  | c :: rest, cur =>
      if c = sep then cur.reverse :: pySplitAux sep rest []
      else pySplitAux sep rest (c :: cur)

def pySplit (s : Str) (sep : Char) : List Str := pySplitAux sep s []

/-! ## Data model

A Python value stored in an entry dictionary: strings, lists of
`[lastname, firstname]` pairs (creators grouped by role), lists of strings
(tags), or `None` (the seeded `collection` placeholder). -/

inductive Val : Type where
  | str (s : Str)
  | pairs (l : List (Str × Str))
  | strs (l : List Str)
  | none
deriving DecidableEq, Repr

/-- One entry: a Python dict from field name to value. -/
abbrev Dict := List (Str × Val)

/-- The temporary per-item map `self._t`. -/
abbrev TMap := List (Nat × Dict)

/-- `self._e`: collection (a string, or `None` for uncollected items) to
map from item-id string to entry. -/
abbrev EMap := List (Val × List (Str × Dict))

instance : DecidableEq EMap := instDecidableEqList

def kZotkey : Str := "zotkey".data
def kCollection : Str := "collection".data
def kAlastnm : Str := "alastnm".data
def kTags : Str := "tags".data
def kEtype : Str := "etype".data
def kNote : Str := "note".data
def kAuthor : Str := "author".data
def kYear : Str := "year".data
def kTitle : Str := "title".data
def kCitekey : Str := "citekey".data
def kDate : Str := "date".data
def kAttachment : Str := "attachment".data
def kIssued : Str := "issued".data

/-! ## Load passes (`_load_zotero_data`) -/

/-- Seed record of `_add_most_fields` for a newly seen item id. -/
def seedEntry (key : Str) : Dict :=
  [(kZotkey, Val.str key), (kCollection, Val.none),
   (kAlastnm, Val.str []), (kTags, Val.strs [])]

/-- `self._t[item_id][field] = value` (the item id is present at call sites). -/
def tSetField (t : TMap) (i : Nat) (k : Str) (v : Val) : TMap :=
  match aget? t i with
  | some e => aset t i (aset e k v)
  | none => t

/-- `_add_most_fields`, iterating the field/value query rows
`(itemID, key, fieldName, value)`. -/
def addMostFields : TMap → List (Nat × Str × Str × Str) → TMap
  | t, [] => t
  | t, (i, key, field, value) :: rest =>
      let t' := if (aget? t i).isSome then t else t ++ [(i, seedEntry key)]
      addMostFields (tSetField t' i field (Val.str value)) rest

/-- `_add_collection`, iterating the membership query rows.  The query orders
rows by `collectionName != "To Read", collectionName`; `db.collectionRows` is
that ordered result, and sortedness is hypothesised where a theorem needs it. -/
def addCollection : TMap → List (Nat × Str) → TMap
  | t, [] => t
  | t, (i, name) :: rest =>
      addCollection
        (match aget? t i with
         | some e => aset t i (aset e kCollection (Val.str name))
         | none => t) rest

/-- Lines 244–247 of `_add_authors`: append the `[lastname, firstname]`
pair under the role key (which must hold a creators list when present — it
is only ever written by this pass; Python's `TypeError` on any other shape
is embedded as `none`). -/
def addCreatorPair (e : Dict) (ctype ln fn : Str) : Option Dict :=
  match aget? e ctype with
  | some (Val.pairs l) => some (aset e ctype (Val.pairs (l ++ [(ln, fn)])))
  | some _ => none
  | none => some (aset e ctype (Val.pairs [(ln, fn)]))

/-- Lines 249–250: `self._t[item_id]['alastnm'] += ', ' + lastname`. -/
def addAlastnm (e : Dict) (ln : Str) : Option Dict :=
  match aget? e kAlastnm with
  | some (Val.str al) => some (aset e kAlastnm (Val.str (al ++ ", ".data ++ ln)))
  | _ => none

/-- The body of `_add_authors` for one row. -/
def authorStep (t : TMap) (i : Nat) (ctype ln fn : Str) : Option TMap :=
  match aget? t i with
  | none => some t
  | some e => do
      let e' ← addCreatorPair e ctype ln fn
      if ctype = kAuthor then do
        let e'' ← addAlastnm e' ln
        some (aset t i e'')
      else some (aset t i e')

/-- `_add_authors`, iterating `(itemID, creatorType, lastName, firstName)`
rows (ordered by `orderIndex`). -/
def addAuthors : TMap → List (Nat × Str × Str × Str) → Option TMap
  | t, [] => some t
  | t, (i, ctype, ln, fn) :: rest => do
      let t' ← authorStep t i ctype ln fn
      addAuthors t' rest

/-- `_add_type`. -/
def addType : TMap → List (Nat × Str) → TMap
  | t, [] => t
  | t, (i, ty) :: rest =>
      addType
        (match aget? t i with
         | some e => aset t i (aset e kEtype (Val.str ty))
         | none => t) rest

/-- `_add_note`. -/
def addNote : TMap → List (Nat × Str) → TMap
  | t, [] => t
  | t, (i, nt) :: rest =>
      addNote
        (match aget? t i with
         | some e => aset t i (aset e kNote (Val.str nt))
         | none => t) rest

/-- `_add_tags` (`'tags'` is seeded as a list; any other shape is a
`TypeError`, embedded as `none`). -/
def addTags : TMap → List (Nat × Str) → Option TMap
  | t, [] => some t
  | t, (i, tag) :: rest => do
      let t' ←
        match aget? t i with
        | none => some t
        | some e =>
            match aget? e kTags with
            | some (Val.strs l) => some (aset t i (aset e kTags (Val.strs (l ++ [tag]))))
            | _ => Option.none
      addTags t' rest

/-- `_add_attachments`: `self._t[pId]['attachment'] = pKey + ':' + aPath`
with no guard on `pId` being present — a missing parent id raises `KeyError`,
embedded as `none`. -/
def addAttachments : TMap → List (Str × Nat × Str) → Option TMap
  | t, [] => some t
  | t, (key, pid, path) :: rest =>
      match aget? t pid with
      | some e =>
          addAttachments (aset t pid (aset e kAttachment (Val.str (key ++ ':' :: path)))) rest
      | none => none

/-! ## Citation keys (`_calculate_citekeys`) -/

/-- `re.sub(' .*', '', date).split('-')[0]`. -/
def yearOfDate (d : Str) : Str :=
  match pySplit (cutLines (· = ' ') d) '-' with
  | [] => []
  | y :: _ => y

/-- Characters of the class `[ ,;:\.!?]`. -/
def isStop (c : Char) : Bool :=
  c = ' ' || c = ',' || c = ';' || c = ':' || c = '.' || c = '!' || c = '?'

/-- The alternatives of `'^(' + ' |'.flatten(self._w) + ' )'`.  `self._w` is a
string, so `' |'.flatten` iterates its characters: each alternative is a single
character of the banned-words string followed by a space. -/
def banAlts (w : Str) : List Str := w.map (fun c => [c, ' '])

/-- `re.sub(ptrn, '', title)` with the anchored alternation above: remove the
first alternative (in order) that matches at position 0, if any. -/
def stripBanned (w s : Str) : Str :=
  match (banAlts w).find? (fun alt => alt.isPrefixOf s) with
  | some alt => s.drop alt.length
  | none => s

/-- `re.sub('^[a-z] ', '', title)`. -/
def stripOneLetter : Str → Str
  | c :: ' ' :: rest => if 'a' ≤ c ∧ c ≤ 'z' then rest else c :: ' ' :: rest
  | s => s

/-- Lines 308–310: lowercase, banned-pattern strip, one-letter strip,
then `re.sub('[ ,;:\.!?].*', '', title)`. -/
def titleWordOf (w t : Str) : Str :=
  cutLines isStop (stripOneLetter (stripBanned w (pyLower t)))

/-- `re.sub('^[0-9][0-9]', '', year)`. -/
def stripTwoDigits : Str → Str
  | a :: b :: rest => if a.isDigit ∧ b.isDigit then rest else a :: b :: rest
  | s => s

/-- Lines 320–327: the six substitutions into the template, then space
removal.  `lastname` and `titlew` arrive already stripped of non-word
characters (lines 318–319). -/
def buildKey (cite lastname year titlew : Str) : Str :=
  let key := pyReplaceAll cite ("{author}".data) (pyLower lastname)
  let key := pyReplaceAll key ("{Author}".data) (pyTitle lastname)
  let key := pyReplaceAll key ("{year}".data) (stripTwoDigits year)
  let key := pyReplaceAll key ("{Year}".data) year
  let key := pyReplaceAll key ("{title}".data) (pyLower titlew)
  let key := pyReplaceAll key ("{Title}".data) (pyTitle titlew)
  removeSpaces key

/-- Lines 302–306: the year; `'date'` must be a string when present
(`TypeError` otherwise, embedded as `none`). -/
def yearOf? (e : Dict) : Option Str :=
  match aget? e kDate with
  | some (Val.str d) => some (yearOfDate d)
  | some _ => none
  | none => some []

/-- Lines 307–313: the title word; the missing-title branch stores an empty
title on the entry. -/
def titleOf? (w : Str) (e : Dict) : Option (Dict × Str) :=
  match aget? e kTitle with
  | some (Val.str ti) => some (e, titleWordOf w ti)
  | some _ => none
  | none => some (aset e kTitle (Val.str []), ([] : Str))

/-- Lines 314–317: `self._t[k]['author'][0][0]`, with fallback `No_author`;
`'author'` must be a non-empty creators list when present
(`TypeError`/`IndexError` otherwise, embedded as `none`). -/
def lastnameOf? (e : Dict) : Option Str :=
  match aget? e kAuthor with
  | some (Val.pairs ((ln, _) :: _)) => some ln
  | some (Val.pairs []) => none
  | some _ => none
  | none => some ("No_author".data)

/-- The per-entry body of `_calculate_citekeys` (lines 302–328). -/
def calcEntry (cite w : Str) (e : Dict) : Option Dict := do
  let year ← yearOf? e
  let e := aset e kYear (Val.str year)
  let p ← titleOf? w e
  let lastname ← lastnameOf? p.1
  some (aset p.1 kCitekey
    (Val.str (buildKey cite (filterWord lastname) year (filterWord p.2))))

def calcCitekeys (cite w : Str) : TMap → Option TMap
  | [] => some []
  | (i, e) :: rest => do
      let e' ← calcEntry cite w e
      let rest' ← calcCitekeys cite w rest
      some ((i, e') :: rest')

/-! ## `_separate_by_collection` -/

/-- `re.sub('^, ', '', s)`. -/
def stripLeadComma : Str → Str
  | ',' :: ' ' :: rest => rest
  | s => s

/-- Python `v == "lit"` where `v` may not be a string (then `False`). -/
def valEqStr (v : Val) (s : Str) : Bool :=
  match v with
  | Val.str x => x = s
  | _ => false

/-- Python `str(k)` for an item id. -/
def natStr (n : Nat) : Str := (toString n).data

/-- `self._e[coll] = {}` if absent, then `self._e[coll][str(k)] = entry`. -/
def eAdd (em : EMap) (c : Val) (id : Str) (e : Dict) : EMap :=
  aset em c (aset ((aget? em c).getD []) id e)

def separate (del : List Nat) : TMap → EMap → Option EMap
  | [], em => some em
  | (i, e) :: rest, em =>
      if del.contains i then separate del rest em
      else
        match aget? e kEtype with
        | none => none
        | some ety =>
            if valEqStr ety ("attachment".data) then separate del rest em
            else
              match aget? e kAlastnm with
              | some (Val.str al) =>
                  match aget? (aset e kAlastnm (Val.str (stripLeadComma al))) kCollection with
                  | some coll =>
                      separate del rest
                        (eAdd em coll (natStr i) (aset e kAlastnm (Val.str (stripLeadComma al))))
                  | none => none
              | _ => none

/-! ## The load cycle -/

/-- The raw query results of one load cycle.  `collectionRows` is the result
of the ordered membership query; `creatorRows` is ordered by `orderIndex`. -/
structure Db : Type where
  fieldRows : List (Nat × Str × Str × Str)
  collectionRows : List (Nat × Str)
  creatorRows : List (Nat × Str × Str × Str)
  typeRows : List (Nat × Str)
  noteRows : List (Nat × Str)
  tagRows : List (Nat × Str)
  attachmentRows : List (Str × Nat × Str)
  deletedRows : List Nat
deriving DecidableEq, Repr

/-- `_load_zotero_data`'s in-memory effect: rebuild `self._e` from scratch. -/
def load (cite w : Str) (db : Db) : Option EMap := do
  let t := addMostFields [] db.fieldRows
  let t := addCollection t db.collectionRows
  let t ← addAuthors t db.creatorRows
  let t := addType t db.typeRows
  let t := addNote t db.noteRows
  let t ← addTags t db.tagRows
  let t ← addAttachments t db.attachmentRows
  let t ← calcCitekeys cite w t
  separate db.deletedRows t []

def defaultCite : Str := "{Author}_{Year}".data
def defaultBanned : Str := "a an the some from on in to of do with".data

/-! ## Process state

`mtime` is the current modification time of the source file
(`os.path.getmtime(self._z)`), `m` is `self._m` (its value at the last
load), `db` the current content of the source database. -/

structure ZState : Type where
  cite : Str
  w : Str
  mtime : Nat
  m : Nat
  db : Db
  e : EMap
  d : List (Str × List Val)
deriving DecidableEq, Repr

/-! ## `SetCollections` -/

def notFoundMsg (c : Str) : Str :=
  "Collection \"".data ++ c ++ "\" not found in Zotero database.".data

/-- The validation loop of `SetCollections`: append each known collection,
return the error message at the first unknown one (keeping what was already
appended to `self._d[d]`). -/
def setCollsLoop (em : EMap) (acc : List Val) : List Str → Str × List Val
  | [] => ([], acc)
  | c :: rest =>
      if (aget? em (Val.str c)).isSome then setCollsLoop em (acc ++ [Val.str c]) rest
      else (notFoundMsg c, acc)

def SetCollections (st : ZState) (doc : Str) (clist : List Str) : Str × ZState :=
  if clist = [([] : Str)] then
    ([], { st with d := aset st.d doc (st.e.map (·.1)) })
  else
    let r := setCollsLoop st.e [] clist
    (r.1, { st with d := aset st.d doc r.2 })

/-! ## `GetMatch` -/

/-- Entry field access requiring a string value (`KeyError`/`TypeError`
otherwise, embedded as `none`). -/
def getS? (e : Dict) (k : Str) : Option Str :=
  match aget? e k with
  | some (Val.str s) => some s
  | _ => none

/-- The six-way priority classification of lines 376–387; `0` means no
bucket.  `e['alastnm'][0][0]` on a string is its first character (taken
twice), embedded as `al.take 1` under the truthiness guard `al ≠ []`. -/
def classify (ptrn : Str) (e : Dict) : Option Nat := do
  let ck ← getS? e kCitekey
  let al ← getS? e kAlastnm
  let ti ← getS? e kTitle
  some
    (if pyFind (pyLower ck) ptrn = 0 then 1
     else if al ≠ [] ∧ pyFind (pyLower (al.take 1)) ptrn = 0 then 2
     else if pyFind (pyLower ti) ptrn = 0 then 3
     else if pyFind (pyLower ck) ptrn > 0 then 4
     else if al ≠ [] ∧ pyFind (pyLower (al.take 1)) ptrn > 0 then 5
     else if pyFind (pyLower ti) ptrn > 0 then 6
     else 0)

/-- `_get_compl_line`. -/
def getComplLine (e : Dict) : Option Str := do
  let al ← getS? e kAlastnm
  let zk ← getS? e kZotkey
  let ck ← getS? e kCitekey
  let yr ← getS? e kYear
  let ti ← getS? e kTitle
  if al = [] then
    some (zk ++ '#' :: ck ++ '\t' :: ' ' :: '\t' :: '(' :: yr ++ ')' :: ' ' :: ti)
  else
    some (zk ++ '#' :: ck ++ '\t' :: al ++ '\t' :: '(' :: yr ++ ')' :: ' ' :: ti)

structure Buckets : Type where
  p1 : List Str
  p2 : List Str
  p3 : List Str
  p4 : List Str
  p5 : List Str
  p6 : List Str
deriving DecidableEq, Repr

def entryStep (ptrn : Str) (b : Buckets) (e : Dict) : Option Buckets := do
  let n ← classify ptrn e
  if n = 0 then some b
  else do
    let line ← getComplLine e
    some (if n = 1 then { b with p1 := b.p1 ++ [line] }
      else if n = 2 then { b with p2 := b.p2 ++ [line] }
      else if n = 3 then { b with p3 := b.p3 ++ [line] }
      else if n = 4 then { b with p4 := b.p4 ++ [line] }
      else if n = 5 then { b with p5 := b.p5 ++ [line] }
      else { b with p6 := b.p6 ++ [line] })

def bucketEntries (ptrn : Str) : Buckets → List (Str × Dict) → Option Buckets
  | b, [] => some b
  | b, (_, e) :: rest => do
      let b' ← entryStep ptrn b e
      bucketEntries ptrn b' rest

def bucketColls (ptrn : Str) (em : EMap) : Buckets → List Val → Option Buckets
  | b, [] => some b
  | b, c :: rest => do
      let ents ← aget? em c
      let b' ← bucketEntries ptrn b ents
      bucketColls ptrn em b' rest

/-- Lines 363–389 of `GetMatch` (after the staleness check). -/
def getMatchCore (st : ZState) (ptrn doc : Str) : Option (List Str) := do
  let colls ← aget? st.d doc
  let colls := if colls = [] then st.e.map (·.1) else colls
  let b ← bucketColls ptrn st.e ⟨[], [], [], [], [], []⟩ colls
  some (b.p1 ++ b.p2 ++ b.p3 ++ b.p4 ++ b.p5 ++ b.p6)

/-- The in-memory effect of `_load_zotero_data` during a staleness reload. -/
def reload (st : ZState) : Option ZState := do
  let em ← load st.cite st.w st.db
  some { st with m := st.mtime, e := em }

def GetMatch (st : ZState) (ptrn doc : Str) : Option (List Str × ZState) := do
  let st ← if st.mtime > st.m then reload st else some st
  let res ← getMatchCore st ptrn doc
  some (res, st)

/-! ## CSL tables -/

/-- `_zct`: zotero type to CSL type. -/
def zct : List (Str × Str) :=
  [("artwork".data, "graphic".data),
   ("audioRecording".data, "song".data),
   ("blogPost".data, "post-weblog".data),
   ("bookSection".data, "chapter".data),
   ("case".data, "legal_case".data),
   ("computerProgram".data, "book".data),
   ("conferencePaper".data, "paper-conference".data),
   ("dictionaryEntry".data, "entry-dictionary".data),
   ("document".data, "report".data),
   ("email".data, "personal_communication".data),
   ("encyclopediaArticle".data, "entry-encyclopedia".data),
   ("film".data, "motion_picture".data),
   ("forumPost".data, "post".data),
   ("hearing".data, "bill".data),
   ("instantMessage".data, "personal_communication".data),
   ("interview".data, "interview".data),
   ("journalArticle".data, "article-journal".data),
   ("letter".data, "personal_communication".data),
   ("magazineArticle".data, "article-magazine".data),
   ("newspaperArticle".data, "article-newspaper".data),
   ("note".data, "manuscript".data),
   ("podcast".data, "broadcast".data),
   ("presentation".data, "speech".data),
   ("radioBroadcast".data, "broadcast".data),
   ("statute".data, "legislation".data),
   ("tvBroadcast".data, "broadcast".data),
   ("videoRecording".data, "motion_picture".data)]

/-- `_zcf`: zotero field to CSL field. -/
def zcf : List (Str × Str) :=
  [("abstractNote".data, "abstract".data),
   ("accessDate".data, "accessed".data),
   ("applicationNumber".data, "call-number".data),
   ("archiveLocation".data, "archive_location".data),
   ("artworkMedium".data, "medium".data),
   ("artworkSize".data, "dimensions".data),
   ("audioFileType".data, "medium".data),
   ("blogTitle".data, "container-title".data),
   ("bookTitle".data, "container-title".data),
   ("callNumber".data, "call-number".data),
   ("code".data, "container-title".data),
   ("codeNumber".data, "volume".data),
   ("codePages".data, "page".data),
   ("codeVolume".data, "volume".data),
   ("conferenceName".data, "event".data),
   ("court".data, "authority".data),
   ("date".data, "issued".data),
   ("dictionaryTitle".data, "container-title".data),
   ("distributor".data, "publisher".data),
   ("encyclopediaTitle".data, "container-title".data),
   ("extra".data, "note".data),
   ("filingDate".data, "submitted".data),
   ("forumTitle".data, "container-title".data),
   ("history".data, "references".data),
   ("institution".data, "publisher".data),
   ("interviewMedium".data, "medium".data),
   ("issuingAuthority".data, "authority".data),
   ("legalStatus".data, "status".data),
   ("legislativeBody".data, "authority".data),
   ("libraryCatalog".data, "source".data),
   ("meetingName".data, "event".data),
   ("numPages".data, "number-of-pages".data),
   ("numberOfVolumes".data, "number-of-volumes".data),
   ("pages".data, "page".data),
   ("place".data, "publisher-place".data),
   ("priorityNumbers".data, "issue".data),
   ("proceedingsTitle".data, "container-title".data),
   ("programTitle".data, "container-title".data),
   ("programmingLanguage".data, "genre".data),
   ("publicationTitle".data, "container-title".data),
   ("reporter".data, "container-title".data),
   ("runningTime".data, "dimensions".data),
   ("series".data, "collection-title".data),
   ("seriesNumber".data, "collection-number".data),
   ("seriesTitle".data, "collection-title".data),
   ("session".data, "chapter-number".data),
   ("shortTitle".data, "title-short".data),
   ("system".data, "medium".data),
   ("thesisType".data, "genre".data),
   ("type".data, "genre".data),
   ("university".data, "publisher".data),
   ("url".data, "URL".data),
   ("versionNumber".data, "version".data),
   ("websiteTitle".data, "container-title".data),
   ("websiteType".data, "genre".data)]

/-! ## `_get_yaml_ref` and `GetYamlRefs` -/

/-- `re.sub('"', '\\"', s)`: insert a backslash before every double quote. -/
def escQuotes (s : Str) : Str :=
  (s.map (fun c => if c = '"' then ['\\', '"'] else [c])).flatten

/-- Python `repr` of a string (ASCII essentials: quote choice, backslash and
quote escaping, common control characters). -/
def reprEscape (q : Char) (c : Char) : Str :=
  if c = '\\' then ['\\', '\\']
  else if c = q then ['\\', q]
  else if c = '\n' then ['\\', 'n']
  else if c = '\r' then ['\\', 'r']
  else if c = '\t' then ['\\', 't']
  else [c]

def pyReprStr (s : Str) : Str :=
  let q : Char := if s.contains '\'' && ! s.contains '"' then '"' else '\''
  q :: (s.map (reprEscape q)).flatten ++ [q]

/-- Python `str()` of a stored value, as used for the flat tail fields. -/
def pyStr : Val → Str
  | Val.str s => s
  | Val.none => "None".data
  | Val.strs l => '[' :: (", ".data.intercalate (l.map pyReprStr)) ++ [']']
  | Val.pairs l =>
      '[' :: (", ".data.intercalate (l.map (fun p =>
        '[' :: pyReprStr p.1 ++ ", ".data ++ pyReprStr p.2 ++ [']']))) ++ [']']

/-- Lines 399–402: pop each original key that `_zcf` maps and re-insert the
value under the CSL name (append at the end, or overwrite in place). -/
def renameFields : Dict → List Str → Option Dict
  | e, [] => some e
  | e, f :: rest =>
      match aget? zcf f with
      | some g =>
          match aget? e f with
          | some v => renameFields (aset (apop e f) g v) rest
          | none => none
      | none => renameFields e rest

def roles : List Str :=
  [kAuthor, "editor".data, "contributor".data, "translator".data,
   "container-author".data]

def dontKeys : List Str :=
  [kEtype, kIssued, "abstract".data, kCitekey, kZotkey, kCollection,
   kAuthor, "editor".data, "contributor".data, "translator".data,
   kAlastnm, "container-author".data, kTags, kYear]

/-- Lines 405–411: the creator-role blocks. -/
def addRoles (e : Dict) : List Str → Str → Option Str
  | [], ref => some ref
  | aa :: rest, ref =>
      match aget? e aa with
      | none => addRoles e rest ref
      | some (Val.pairs l) =>
          addRoles e rest (ref ++ "  ".data ++ aa ++ ":\n".data ++
            (l.map (fun p => "  - family: \"".data ++ p.1 ++
              "\"\n    given: \"".data ++ p.2 ++ "\"\n".data)).flatten)
      | some _ => none

/-- Lines 412–419: the `issued` block.  `d[1]` and `d[2]` are unconditional
index accesses; `IndexError` on a short split is embedded as `none`. -/
def addIssued (e : Dict) (ref : Str) : Option Str :=
  match aget? e kIssued with
  | none => some ref
  | some (Val.str iss) =>
      let ds := pySplit (cutLines (· = ' ') iss) '-'
      match ds with
      | [] => none
      | d0 :: _ =>
          if d0 ≠ "0000".data then do
            let yr ← getS? e kYear
            let ref := ref ++ "  issued:\n    year: ".data ++ yr ++ ['\n']
            let d1 ← ds[1]?
            let ref := if d1 ≠ "00".data then ref ++ "    month: ".data ++ d1 ++ ['\n'] else ref
            let d2 ← ds[2]?
            some (if d2 ≠ "00".data then ref ++ "    day: ".data ++ d2 ++ ['\n'] else ref)
          else some ref
  | some _ => none

/-- `_get_yaml_ref(e, citekey)`: returns the rendered block and the entry as
left behind — the type fix, quote escaping and renames act on the entry
itself.  `'etype'` must be present and a string (it is only ever written as
one by `_add_type` and the type fix). -/
def getYamlRef (e : Dict) (citekey : Str) : Option (Str × Dict) := do
  let e ←
    match aget? e kEtype with
    | some (Val.str ty) =>
        some (match aget? zct ty with
          | some csl => aset e kEtype (Val.str csl)
          | none => e)
    | some _ => Option.none
    | none => Option.none
  let e := e.map (fun p => match p.2 with
    | Val.str s => (p.1, Val.str (escQuotes s))
    | _ => p)
  let e ← renameFields e (e.map (·.1))
  let ety ← getS? e kEtype
  let ref := "- type: ".data ++ ety ++ "\n  id: ".data ++ citekey ++ ['\n']
  let ref ← addRoles e roles ref
  let ref ← addIssued e ref
  let tail := (e.filter (fun p => ¬ dontKeys.contains p.1)).map
      (fun p => "  ".data ++ p.1 ++ ": \"".data ++ pyStr p.2 ++ "\"\n".data)
  some (ref ++ tail.flatten, e)

/-- The innermost loop of `GetYamlRefs`: try every requested key against one
cached entry, threading the entry through the in-place mutation of
`_get_yaml_ref`. -/
def yamlKeys : List Str → Dict → Str → Option (Str × Dict)
  | [], e, ref => some (ref, e)
  | k :: rest, e, ref =>
      match aget? e kZotkey with
      | none => none
      | some v =>
          if valEqStr v (cutLines (· = '#') k) then do
            let r ← getYamlRef e k
            yamlKeys rest r.2 (ref ++ r.1)
          else yamlKeys rest e ref

def yamlBucket (keys : List Str) : List (Str × Dict) → Str → Option (Str × List (Str × Dict))
  | [], ref => some (ref, [])
  | (id, e) :: rest, ref => do
      let r ← yamlKeys keys e ref
      let r' ← yamlBucket keys rest r.1
      some (r'.1, (id, r.2) :: r'.2)

def yamlColls (keys : List Str) : EMap → Str → Option (Str × EMap)
  | [], ref => some (ref, [])
  | (c, ents) :: rest, ref => do
      let r ← yamlBucket keys ents ref
      let r' ← yamlColls keys rest r.1
      some (r'.1, (c, r.2) :: r'.2)

/-- `GetYamlRefs(keys)`: no staleness check — it renders from the cached
`self._e`, whose entries it mutates in place. -/
def GetYamlRefs (st : ZState) (keys : List Str) : Option (Str × ZState) := do
  let r ← yamlColls keys st.e []
  let ref :=
    if r.1 ≠ [] then ("---\nreferences:\n".data ++ r.1 ++ "...\n\ndummy text\n".data)
    else r.1
  some (ref, { st with e := r.2 })

/-! ## Auxiliary definitions for the statements -/

/-- The designated collection name of the membership query's `ORDER BY`. -/
def toReadStr : Str := "To Read".data

/-- Primary sort key of `ORDER by collections.collectionName != "To Read"`:
`0` for `"To Read"` (false sorts first), `1` otherwise. -/
def colKey (name : Str) : Nat := if name = toReadStr then 0 else 1

/-- Lexicographic comparison of strings (SQLite `ORDER BY` on text). -/
def strLeB : Str → Str → Bool
  | [], _ => true
  | _ :: _, [] => false
  | a :: as, b :: bs => if a = b then strLeB as bs else decide (a < b)

/-- The row order produced by the membership query:
`ORDER by collectionName != "To Read", collectionName`. -/
def colRowLe (a b : Nat × Str) : Prop :=
  colKey a.2 < colKey b.2 ∨ (colKey a.2 = colKey b.2 ∧ strLeB a.2 b.2 = true)

instance : DecidableRel colRowLe := fun a b => by
  unfold colRowLe
  infer_instance

/-- The `collection` value stored for item `i`. -/
def collOf (t : TMap) (i : Nat) : Option Val :=
  (aget? t i).bind (fun e => aget? e kCollection)

/-- The last membership row for item `i`, the one whose write wins. -/
def lastColl (rows : List (Nat × Str)) (i : Nat) : Option (Nat × Str) :=
  (rows.filter (fun r => r.1 = i)).getLast?

/-- Every entry of every collection bucket satisfies `Q`. -/
def entryProp (Q : Dict → Prop) (em : EMap) : Prop :=
  ∀ c ents i e, (c, ents) ∈ em → (i, e) ∈ ents → Q e

/-! ## Concrete states used by the counterexamples and witnesses -/

/-- Database with one item: citekey template `{Year}` gives citekey `2020`
while the author string is `abc`. -/
def c1Db : Db :=
  ⟨[(1, "Z".data, "date".data, "2020".data), (1, "Z".data, "title".data, "tt".data)],
   [(1, "C".data)], [(1, "author".data, "abc".data, "x".data)],
   [(1, "journalArticle".data)], [], [], [], []⟩

def c1Cite : Str := "{Year}".data

def c1Entry : Dict :=
  [(kZotkey, Val.str ("Z".data)), (kCollection, Val.str ("C".data)),
   (kAlastnm, Val.str ("abc".data)), (kTags, Val.strs []),
   (kDate, Val.str ("2020".data)), (kTitle, Val.str ("tt".data)),
   (kAuthor, Val.pairs [("abc".data, "x".data)]),
   (kEtype, Val.str ("journalArticle".data)),
   (kYear, Val.str ("2020".data)), (kCitekey, Val.str ("2020".data))]

def c1Em : EMap := [(Val.str ("C".data), [("1".data, c1Entry)])]

def c1St : ZState :=
  ⟨c1Cite, defaultBanned, 0, 0, c1Db, c1Em, [("doc".data, [Val.str ("C".data)])]⟩

/-- Database with one item whose title contains a double quote. -/
def c2Db : Db :=
  ⟨[(1, "Z".data, "title".data, "a\"b".data)], [(1, "C".data)], [],
   [(1, "journalArticle".data)], [], [], [], []⟩

def c2Entry : Dict :=
  [(kZotkey, Val.str ("Z".data)), (kCollection, Val.str ("C".data)),
   (kAlastnm, Val.str []), (kTags, Val.strs []),
   (kTitle, Val.str ("a\"b".data)),
   (kEtype, Val.str ("journalArticle".data)),
   (kYear, Val.str []), (kCitekey, Val.str ("No_Author_".data))]

def c2Em : EMap := [(Val.str ("C".data), [("1".data, c2Entry)])]

def c2St : ZState :=
  ⟨defaultCite, defaultBanned, 0, 0, c2Db, c2Em, [("doc".data, [Val.str ("C".data)])]⟩

def c2Keys : List Str := ["Z#No_Author_".data]

/-- The cached entry after the export: title escaped in place, type remapped. -/
def c2EntryAfter : Dict :=
  [(kZotkey, Val.str ("Z".data)), (kCollection, Val.str ("C".data)),
   (kAlastnm, Val.str []), (kTags, Val.strs []),
   (kTitle, Val.str ("a\\\"b".data)),
   (kEtype, Val.str ("article-journal".data)),
   (kYear, Val.str []), (kCitekey, Val.str ("No_Author_".data))]

def c2EmAfter : EMap := [(Val.str ("C".data), [("1".data, c2EntryAfter)])]

def c2StAfter : ZState :=
  ⟨defaultCite, defaultBanned, 0, 0, c2Db, c2EmAfter, [("doc".data, [Val.str ("C".data)])]⟩

def c2Ref : Str :=
  "---\nreferences:\n- type: article-journal\n  id: Z#No_Author_\n  title: \"a\\\"b\"\n...\n\ndummy text\n".data

/-- A one-item database filed under collection `A`, shared by several
witnesses. -/
def dbA : Db :=
  ⟨[(1, "Z".data, "title".data, "t".data)], [(1, "A".data)], [],
   [(1, "book".data)], [], [], [], []⟩

def entryA : Dict :=
  [(kZotkey, Val.str ("Z".data)), (kCollection, Val.str ("A".data)),
   (kAlastnm, Val.str []), (kTags, Val.strs []),
   (kTitle, Val.str ("t".data)), (kEtype, Val.str ("book".data)),
   (kYear, Val.str []), (kCitekey, Val.str ("No_Author_".data))]

def emA : EMap := [(Val.str ("A".data), [("1".data, entryA)])]

/-- State whose document `doc` is bound to collection `A`. -/
def c3St : ZState :=
  ⟨defaultCite, defaultBanned, 0, 0, dbA, emA, [("doc".data, [Val.str ("A".data)])]⟩

/-- A stale state: the file's modification time has advanced past the last
load, the cached index is empty, and the database now holds one item. -/
def c4St : ZState := ⟨defaultCite, defaultBanned, 1, 0, dbA, [], []⟩

/-- A stale state on which `GetMatch` succeeds (used by the C4 witness). -/
def c4WSt : ZState := ⟨defaultCite, defaultBanned, 5, 0, dbA, [], [("doc".data, [])]⟩

def c4WAfter : ZState := ⟨defaultCite, defaultBanned, 5, 5, dbA, emA, [("doc".data, [])]⟩

/-- Attachment row whose parent item id `5` has no field rows at all. -/
def c10Db : Db := ⟨[], [], [], [], [], [], [("K".data, 5, "p".data)], []⟩

/-! ## General lemmas about the embedding -/

theorem aget?_aset_self {κ α : Type} [DecidableEq κ] (m : List (κ × α)) (k : κ) (v : α) :
    aget? (aset m k v) k = some v := by
  induction m with
  | nil => simp [aset, aget?]
  | cons p rest ih =>
      obtain ⟨k', v'⟩ := p
      by_cases h : k' = k <;> simp [aset, aget?, h, ih]

theorem aget?_aset_ne {κ α : Type} [DecidableEq κ] (m : List (κ × α)) (k k' : κ) (v : α)
    (h : k' ≠ k) : aget? (aset m k v) k' = aget? m k' := by
  induction m with
  | nil => simp [aset, aget?, Ne.symm h]
  | cons p rest ih =>
      obtain ⟨k₀, v₀⟩ := p
      by_cases h0 : k₀ = k
      · subst h0
        simp [aset, aget?, Ne.symm h]
      · simp only [aset, if_neg h0, aget?]
        by_cases h1 : k₀ = k' <;> simp [h1, ih]

theorem mem_aset {κ α : Type} [DecidableEq κ] {m : List (κ × α)} {k : κ} {v : α} {p : κ × α}
    (h : p ∈ aset m k v) : p = (k, v) ∨ p ∈ m := by
  induction m with
  | nil => simpa [aset] using h
  | cons q rest ih =>
      obtain ⟨k₀, v₀⟩ := q
      by_cases h0 : k₀ = k
      · simp only [aset, if_pos h0, List.mem_cons] at h
        rcases h with h | h
        · exact Or.inl h
        · exact Or.inr (List.mem_cons_of_mem _ h)
      · simp only [aset, if_neg h0, List.mem_cons] at h
        rcases h with h | h
        · exact Or.inr (by simp [h])
        · rcases ih h with h' | h'
          · exact Or.inl h'
          · exact Or.inr (List.mem_cons_of_mem _ h')

theorem mem_of_aget? {κ α : Type} [DecidableEq κ] {m : List (κ × α)} {k : κ} {v : α}
    (h : aget? m k = some v) : (k, v) ∈ m := by
  induction m with
  | nil => simp [aget?] at h
  | cons p rest ih =>
      obtain ⟨k₀, v₀⟩ := p
      by_cases h0 : k₀ = k
      · subst h0
        rw [aget?, if_pos rfl] at h
        cases Option.some.inj h
        exact List.mem_cons_self _ _
      · simp only [aget?, if_neg h0] at h
        exact List.mem_cons_of_mem _ (ih h)

/-- Characters in `pat` survive a replacement whose pattern avoids them. -/
theorem mem_replaceAux {c : Char} {pat : Str} (rep : Str) (hpat : c ∉ pat) :
    ∀ (fuel : Nat) (s : Str), c ∈ s → c ∈ replaceAux pat rep fuel s := by
  intro fuel
  induction fuel with
  | zero =>
      intro s hc
      cases s with
      | nil => cases hc
      | cons a rest => simpa [replaceAux] using hc
  | succ n ih =>
      intro s hc
      cases s with
      | nil => cases hc
      | cons a rest =>
          by_cases hpre : pat ≠ [] ∧ pat.isPrefixOf (a :: rest)
          · rw [replaceAux, if_pos hpre]
            obtain ⟨t, ht⟩ := (List.isPrefixOf_iff_prefix.mp hpre.2)
            have hdrop : (a :: rest).drop pat.length = t := by
              rw [← ht]; exact List.drop_left pat t
            have hct : c ∈ t := by
              rw [← ht] at hc
              rcases List.mem_append.mp hc with h | h
              · exact absurd h hpat
              · exact h
            exact List.mem_append.mpr (Or.inr (ih _ (hdrop ▸ hct)))
          · rw [replaceAux, if_neg hpre]
            rcases List.mem_cons.mp hc with h | h
            · exact List.mem_cons.mpr (Or.inl h)
            · exact List.mem_cons.mpr (Or.inr (ih _ h))

theorem mem_pyReplaceAll {c : Char} {s : Str} (pat rep : Str)
    (hc : c ∈ s) (hpat : c ∉ pat) : c ∈ pyReplaceAll s pat rep :=
  mem_replaceAux rep hpat s.length s hc

/-! ## Claim theorems -/

/-- C1: in the state loaded from `c1Db` (citekey `2020` under template
`{Year}`, author-lastnames string `abc`, title `tt`), the pattern `ab` is a
prefix of the author-lastnames string and not of the citekey, yet `GetMatch`
places the entry in no bucket at all: line 378 compares the pattern against
`alastnm[0][0]`, the first character of the author string, so an entry whose
author string starts with a multi-character pattern is not put in the second
bucket (and the fifth bucket is unreachable), contradicting the claim. -/
theorem C1_author_prefix_dropped :
    load c1Cite defaultBanned c1Db = some c1Em ∧
    aget? c1Entry kAlastnm = some (Val.str ("abc".data)) ∧
    pyFind (pyLower ("abc".data)) ("ab".data) = 0 ∧
    pyFind (pyLower ("2020".data)) ("ab".data) ≠ 0 ∧
    GetMatch c1St ("ab".data) ("doc".data) = some ([], c1St) := by decide

/-- C5: the banned-word strip pattern is built from `' |'.join(self._w)`
where `self._w` is a string, so only single banned characters followed by a
space are ever stripped: the title `The rise of systems` yields title-word
`the` (the claim says `rise`), and with template `{title}` the citekey
becomes `the`. -/
theorem C5_banned_words_not_stripped :
    titleWordOf defaultBanned ("The rise of systems".data) = "the".data ∧
    (calcEntry ("{title}".data) defaultBanned
        [(kTitle, Val.str ("The rise of systems".data))]).map
      (fun e => aget? e kCitekey) = some (some (Val.str ("the".data))) := by decide

/-- C6 counterexample: with template `{year}` and date `89`, the generated
citekey is the empty string — the two leading digits are stripped even
though the year has fewer than 4 characters, so `{year}` is not replaced by
`89` unchanged as the claim states. -/
theorem C6_counterexample :
    (calcEntry ("{year}".data) defaultBanned [(kDate, Val.str ("89".data))]).map
      (fun e => aget? e kCitekey) = some (some (Val.str [])) ∧
    Val.str ([] : Str) ≠ Val.str ("89".data) := by decide

/-- C6 (amended): the `{year}` replacement strips the two leading characters
exactly when they are both digits, regardless of the year's length; a
two-character year such as `89` becomes the empty string. -/
theorem C6_year_strip_unconditional (y : Str) :
    stripTwoDigits y =
      if 2 ≤ y.length ∧ (y.take 2).all Char.isDigit then y.drop 2 else y := by
  match y with
  | [] => simp [stripTwoDigits]
  | [a] => simp [stripTwoDigits]
  | a :: b :: r =>
      by_cases h : a.isDigit ∧ b.isDigit
      · simp [stripTwoDigits, h]
      · simp only [stripTwoDigits, if_neg h]
        have : ¬ (2 ≤ (a :: b :: r).length ∧ ((a :: b :: r).take 2).all Char.isDigit) := by
          intro hc
          exact h (by simpa using hc.2)
        rw [if_neg this]

/-- C2 counterexample: exporting the entry of `c2St` (whose title contains a
double quote) changes the cached CollectionIndex, and the same search
returns different completion lines after the export than before it. -/
theorem C2_counterexample :
    ((GetYamlRefs c2St c2Keys).map (fun r => r.2.e)) ≠ some c2St.e ∧
    ((GetYamlRefs c2St c2Keys).map (fun r => r.2)).bind
        (fun st => (GetMatch st ("a".data) ("doc".data)).map (fun r => r.1)) ≠
      (GetMatch c2St ("a".data) ("doc".data)).map (fun r => r.1) := by decide

/-- C2 (amended): `GetYamlRefs` applies the type remapping, quote escaping
and field renaming to the cached Entry itself, not to a copy: on the
load-reachable state `c2St` the export leaves behind `c2StAfter`, whose
cached entry has an escaped title and a remapped type, and a search executed
after the export returns different completion lines from the same search
before it. -/
theorem C2_export_mutates_cache :
    load defaultCite defaultBanned c2Db = some c2Em ∧
    GetYamlRefs c2St c2Keys = some (c2Ref, c2StAfter) ∧
    c2StAfter.e ≠ c2St.e ∧
    (GetMatch c2StAfter ("a".data) ("doc".data)).map (fun r => r.1) ≠
      (GetMatch c2St ("a".data) ("doc".data)).map (fun r => r.1) := by decide

/-- C3 counterexample: with document `doc` previously bound to `["A"]`,
binding `["bad"]` (an unknown name) returns a non-empty error string but
resets the stored binding of `doc` to `[]` — the previous binding is not
preserved, because `SetCollections` clears `self._d[d]` before validating. -/
theorem C3_counterexample :
    load defaultCite defaultBanned dbA = some emA ∧
    aget? c3St.d ("doc".data) = some [Val.str ("A".data)] ∧
    (SetCollections c3St ("doc".data) ["bad".data]).1 ≠ [] ∧
    aget? (SetCollections c3St ("doc".data) ["bad".data]).2.d ("doc".data) = some [] := by
  decide

/-- C4 counterexample: in the stale state `c4St` (`mtime > m`, cached index
empty, database now holding one item) `GetYamlRefs` returns the empty
export built from the stale cache and leaves the state unchanged — no
reload happens, although a load of the current database would produce the
non-empty index `emA`. -/
theorem C4_counterexample :
    c4St.mtime > c4St.m ∧
    GetYamlRefs c4St ["Z#No_Author_".data] = some ([], c4St) ∧
    load c4St.cite c4St.w c4St.db = some emA ∧
    emA ≠ c4St.e := by decide

theorem reload_d {st st' : ZState} (h : reload st = some st') :
    st'.d = st.d ∧ st'.m = st.mtime ∧ load st.cite st.w st.db = some st'.e := by
  unfold reload at h
  cases hload : load st.cite st.w st.db with
  | none => rw [hload] at h; cases h
  | some em =>
      rw [hload] at h
      cases h
      exact ⟨rfl, rfl, rfl⟩

/-- C9: searching for a document that was never bound fails with the
key-lookup error of `self._d[d]` (embedded as `none`) instead of returning
an empty result or defaulting to all collections. -/
theorem C9_unbound_document_errors (st : ZState) (p doc : Str)
    (h : aget? st.d doc = none) : GetMatch st p doc = none := by
  unfold GetMatch
  by_cases hst : st.mtime > st.m
  · rw [if_pos hst]
    cases hrel : reload st with
    | none => rfl
    | some st₁ =>
        have hd : st₁.d = st.d := (reload_d hrel).1
        have hcore : getMatchCore st₁ p doc = none := by
          unfold getMatchCore
          rw [hd, h]
          rfl
        simp [hcore]
  · rw [if_neg hst]
    have hcore : getMatchCore st p doc = none := by
      unfold getMatchCore
      rw [h]
      rfl
    simp [hcore]

theorem C9_witness : GetMatch c3St ("x".data) ("nodoc".data) = none :=
  C9_unbound_document_errors c3St ("x".data) ("nodoc".data) (by decide)

theorem setCollsLoop_unknown (em : EMap) :
    ∀ (clist : List Str) (acc : List Val),
      (∃ c ∈ clist, aget? em (Val.str c) = none) →
      (setCollsLoop em acc clist).1 ≠ [] ∧
      (setCollsLoop em acc clist).2 =
        acc ++ (clist.takeWhile (fun c => (aget? em (Val.str c)).isSome)).map Val.str := by
  intro clist
  induction clist with
  | nil =>
      intro acc h
      obtain ⟨c, hc, _⟩ := h
      cases hc
  | cons c rest ih =>
      intro acc h
      by_cases hk : (aget? em (Val.str c)).isSome
      · have hrest : ∃ c' ∈ rest, aget? em (Val.str c') = none := by
          obtain ⟨c', hc', hnone⟩ := h
          rcases List.mem_cons.mp hc' with rfl | hmem
          · rw [hnone] at hk; cases hk
          · exact ⟨c', hmem, hnone⟩
        have hih := ih (acc ++ [Val.str c]) hrest
        refine ⟨?_, ?_⟩
        · simpa [setCollsLoop, hk] using hih.1
        · simp only [setCollsLoop, if_pos hk]
          rw [hih.2, List.takeWhile_cons_of_pos (by simpa using hk)]
          simp
      · refine ⟨?_, ?_⟩
        · simp only [setCollsLoop, if_neg hk]
          intro hcontra
          simp [notFoundMsg, List.append_eq_nil] at hcontra
        · simp only [setCollsLoop, if_neg hk]
          rw [List.takeWhile_cons_of_neg (by simpa using hk)]
          simp

/-- C3 (amended): binding a collection list (other than the select-all
sentinel `['']`) that contains an unknown name returns a non-empty
descriptive error string and leaves `CollectionIndex` and every other
document's binding unchanged, but the requesting document's binding is
replaced by the valid prefix of the list before the first unknown name
(empty when the first name is unknown) — not left as it was. -/
theorem C3_unknown_collection (st : ZState) (doc : Str) (clist : List Str)
    (hne : clist ≠ [([] : Str)])
    (hunk : ∃ c ∈ clist, aget? st.e (Val.str c) = none) :
    (SetCollections st doc clist).1 ≠ [] ∧
    (SetCollections st doc clist).2.e = st.e ∧
    (SetCollections st doc clist).2.db = st.db ∧
    (SetCollections st doc clist).2.m = st.m ∧
    (SetCollections st doc clist).2.mtime = st.mtime ∧
    (∀ doc', doc' ≠ doc → aget? (SetCollections st doc clist).2.d doc' = aget? st.d doc') ∧
    aget? (SetCollections st doc clist).2.d doc =
      some ((clist.takeWhile (fun c => (aget? st.e (Val.str c)).isSome)).map Val.str) := by
  have hloop := setCollsLoop_unknown st.e clist [] hunk
  unfold SetCollections
  rw [if_neg hne]
  refine ⟨hloop.1, rfl, rfl, rfl, rfl, ?_, ?_⟩
  · intro doc' hdoc'
    exact aget?_aset_ne st.d doc doc' _ hdoc'
  · rw [aget?_aset_self, hloop.2]
    simp

theorem C3_unknown_collection_witness :
    (SetCollections c3St ("doc".data) ["A".data, "bad".data]).1 ≠ [] ∧
    (SetCollections c3St ("doc".data) ["A".data, "bad".data]).2.e = c3St.e ∧
    (SetCollections c3St ("doc".data) ["A".data, "bad".data]).2.db = c3St.db ∧
    (SetCollections c3St ("doc".data) ["A".data, "bad".data]).2.m = c3St.m ∧
    (SetCollections c3St ("doc".data) ["A".data, "bad".data]).2.mtime = c3St.mtime ∧
    (∀ doc', doc' ≠ ("doc".data) →
      aget? (SetCollections c3St ("doc".data) ["A".data, "bad".data]).2.d doc' =
        aget? c3St.d doc') ∧
    aget? (SetCollections c3St ("doc".data) ["A".data, "bad".data]).2.d ("doc".data) =
      some ((["A".data, "bad".data].takeWhile
        (fun c => (aget? c3St.e (Val.str c)).isSome)).map Val.str) :=
  C3_unknown_collection c3St ("doc".data) ["A".data, "bad".data] (by decide)
    ⟨"bad".data, by decide, by decide⟩

theorem getMatch_state {st st' : ZState} {p doc : Str} {out : List Str}
    (h : GetMatch st p doc = some (out, st')) :
    (st.mtime > st.m → st'.m = st.mtime ∧ load st.cite st.w st.db = some st'.e) ∧
    (¬ st.mtime > st.m → st' = st) := by
  unfold GetMatch at h
  by_cases hst : st.mtime > st.m
  · rw [if_pos hst] at h
    cases hrel : reload st with
    | none => rw [hrel] at h; cases h
    | some st₁ =>
        rw [hrel] at h
        cases hcore : getMatchCore st₁ p doc with
        | none => simp [hcore] at h
        | some res =>
            simp only [hcore, Option.some_bind, Option.bind_eq_bind, Option.some.injEq,
              Prod.mk.injEq] at h
            obtain ⟨-, h2⟩ := h
            subst h2
            exact ⟨fun _ => ⟨(reload_d hrel).2.1, (reload_d hrel).2.2⟩,
                   fun hc => absurd hst hc⟩
  · rw [if_neg hst] at h
    cases hcore : getMatchCore st p doc with
    | none => simp [hcore] at h
    | some res =>
        simp only [hcore, Option.some_bind, Option.bind_eq_bind, Option.some.injEq,
          Prod.mk.injEq] at h
        obtain ⟨-, h2⟩ := h
        subst h2
        exact ⟨fun hc => absurd hc hst, fun _ => rfl⟩

theorem getYaml_state {st st' : ZState} {keys : List Str} {out : Str}
    (h : GetYamlRefs st keys = some (out, st')) :
    st'.m = st.m ∧ st'.mtime = st.mtime ∧ st'.db = st.db := by
  unfold GetYamlRefs at h
  cases hy : yamlColls keys st.e [] with
  | none => rw [hy] at h; cases h
  | some r =>
      rw [hy] at h
      simp only [Option.some_bind, Option.bind_eq_bind, Option.some.injEq,
        Prod.mk.injEq] at h
      obtain ⟨-, h2⟩ := h
      subst h2
      exact ⟨rfl, rfl, rfl⟩

theorem getYaml_uses_cache_only (st : ZState) (keys : List Str) (db₂ : Db) (mt₂ : Nat) :
    GetYamlRefs { st with db := db₂, mtime := mt₂ } keys =
      (GetYamlRefs st keys).map (fun r => (r.1, { r.2 with db := db₂, mtime := mt₂ })) := by
  unfold GetYamlRefs
  cases hy : yamlColls keys st.e [] with
  | none => simp [hy]
  | some r => simp [hy]

/-- C4 (amended): only the search operation reloads.  A successful
`GetMatch` on a stale state records the new modification time and fully
rebuilds the index from the database before producing its result, and
leaves the state untouched when the modification time has not advanced;
`GetYamlRefs` never checks staleness: it leaves `m`, `mtime` and `db`
unchanged and its behaviour is independent of the database contents and
modification time, depending only on the cached index. -/
theorem C4_reload_only_in_search :
    (∀ (st : ZState) (p doc : Str) (out : List Str) (st' : ZState),
        GetMatch st p doc = some (out, st') →
        (st.mtime > st.m → st'.m = st.mtime ∧ load st.cite st.w st.db = some st'.e) ∧
        (¬ st.mtime > st.m → st' = st)) ∧
    (∀ (st : ZState) (keys : List Str) (out : Str) (st' : ZState),
        GetYamlRefs st keys = some (out, st') →
        st'.m = st.m ∧ st'.mtime = st.mtime ∧ st'.db = st.db) ∧
    (∀ (st : ZState) (keys : List Str) (db₂ : Db) (mt₂ : Nat),
        GetYamlRefs { st with db := db₂, mtime := mt₂ } keys =
          (GetYamlRefs st keys).map (fun r => (r.1, { r.2 with db := db₂, mtime := mt₂ }))) :=
  ⟨fun _ _ _ _ _ h => getMatch_state h,
   fun _ _ _ _ h => getYaml_state h,
   fun st keys db₂ mt₂ => getYaml_uses_cache_only st keys db₂ mt₂⟩

theorem C4_reload_only_in_search_witness :
    c4WSt.mtime > c4WSt.m ∧ c4WAfter.m = c4WSt.mtime ∧
    load c4WSt.cite c4WSt.w c4WSt.db = some c4WAfter.e :=
  ⟨by decide,
   (C4_reload_only_in_search.1 c4WSt ("q".data) ("doc".data) [] c4WAfter (by decide)).1
     (by decide)⟩

theorem aget?_append {κ α : Type} [DecidableEq κ] (a b : List (κ × α)) (k : κ) :
    aget? (a ++ b) k =
      match aget? a k with
      | some v => some v
      | none => aget? b k := by
  induction a with
  | nil => simp [aget?]
  | cons p rest ih =>
      obtain ⟨k₀, v₀⟩ := p
      by_cases h : k₀ = k <;> simp [aget?, h, ih]

theorem aget?_tSetField_none (t : TMap) (i : Nat) (k : Str) (v : Val) (j : Nat)
    (h : aget? t j = none) : aget? (tSetField t i k v) j = none := by
  unfold tSetField
  cases hi : aget? t i with
  | none => exact h
  | some e =>
      have hij : j ≠ i := by
        rintro rfl
        rw [h] at hi
        cases hi
      rw [aget?_aset_ne t i j _ hij]
      exact h

theorem aget?_addMostFields_none :
    ∀ (rows : List (Nat × Str × Str × Str)) (t : TMap) (j : Nat),
      aget? t j = none → j ∉ rows.map (fun r => r.1) →
      aget? (addMostFields t rows) j = none := by
  intro rows
  induction rows with
  | nil => intro t j h _; exact h
  | cons r rest ih =>
      obtain ⟨i, key, field, value⟩ := r
      intro t j h hnotin
      have hji : j ≠ i := by
        intro hcontra
        exact hnotin (by simp [hcontra])
      have hnotin' : j ∉ rest.map (fun r => r.1) := by
        intro hc
        exact hnotin (by simp [hc])
      rw [addMostFields]
      refine ih _ _ ?_ hnotin'
      apply aget?_tSetField_none
      by_cases hs : (aget? t i).isSome
      · rw [if_pos hs]; exact h
      · rw [if_neg hs, aget?_append, h]
        simp [aget?, Ne.symm hji]

theorem aget?_addCollection_none :
    ∀ (rows : List (Nat × Str)) (t : TMap) (j : Nat),
      aget? t j = none → aget? (addCollection t rows) j = none := by
  intro rows
  induction rows with
  | nil => intro t j h; exact h
  | cons r rest ih =>
      obtain ⟨i, nm⟩ := r
      intro t j h
      rw [addCollection]
      cases hi : aget? t i with
      | none => exact ih t j h
      | some e =>
          apply ih
          have hji : j ≠ i := by
            rintro rfl
            rw [h] at hi
            cases hi
          rw [aget?_aset_ne t i j _ hji]
          exact h

theorem aget?_addType_none :
    ∀ (rows : List (Nat × Str)) (t : TMap) (j : Nat),
      aget? t j = none → aget? (addType t rows) j = none := by
  intro rows
  induction rows with
  | nil => intro t j h; exact h
  | cons r rest ih =>
      obtain ⟨i, ty⟩ := r
      intro t j h
      rw [addType]
      cases hi : aget? t i with
      | none => exact ih t j h
      | some e =>
          apply ih
          have hji : j ≠ i := by
            rintro rfl
            rw [h] at hi
            cases hi
          rw [aget?_aset_ne t i j _ hji]
          exact h

theorem aget?_addNote_none :
    ∀ (rows : List (Nat × Str)) (t : TMap) (j : Nat),
      aget? t j = none → aget? (addNote t rows) j = none := by
  intro rows
  induction rows with
  | nil => intro t j h; exact h
  | cons r rest ih =>
      obtain ⟨i, nt⟩ := r
      intro t j h
      rw [addNote]
      cases hi : aget? t i with
      | none => exact ih t j h
      | some e =>
          apply ih
          have hji : j ≠ i := by
            rintro rfl
            rw [h] at hi
            cases hi
          rw [aget?_aset_ne t i j _ hji]
          exact h

theorem authorStep_shape {t : TMap} {i : Nat} {ctype ln fn : Str} {t₁ : TMap}
    (h : authorStep t i ctype ln fn = some t₁) :
    t₁ = t ∨ ((∃ x, t₁ = aset t i x) ∧ (aget? t i).isSome) := by
  unfold authorStep at h
  split at h
  next heq => exact Or.inl (Option.some.inj h).symm
  next e heq =>
      have hsome : (aget? t i).isSome = true := by rw [heq]; rfl
      cases hcp : addCreatorPair e ctype ln fn with
      | none => rw [hcp] at h; exact Option.noConfusion h
      | some e' =>
          rw [hcp] at h
          simp only [Option.bind_eq_bind, Option.some_bind] at h
          by_cases hca : ctype = kAuthor
          · rw [if_pos hca] at h
            cases hal : addAlastnm e' ln with
            | none => rw [hal] at h; exact Option.noConfusion h
            | some e'' =>
                rw [hal] at h
                simp only [Option.bind_eq_bind, Option.some_bind] at h
                exact Or.inr ⟨⟨e'', (Option.some.inj h).symm⟩, hsome⟩
          · rw [if_neg hca] at h
            exact Or.inr ⟨⟨e', (Option.some.inj h).symm⟩, hsome⟩

theorem aget?_addAuthors_none :
    ∀ (rows : List (Nat × Str × Str × Str)) (t t' : TMap) (j : Nat),
      addAuthors t rows = some t' → aget? t j = none → aget? t' j = none := by
  intro rows
  induction rows with
  | nil =>
      intro t t' j h habs
      cases h
      exact habs
  | cons r rest ih =>
      obtain ⟨i, ctype, ln, fn⟩ := r
      intro t t' j h habs
      rw [addAuthors] at h
      cases hstep : authorStep t i ctype ln fn with
      | none => rw [hstep] at h; exact Option.noConfusion h
      | some t₁ =>
          rw [hstep] at h
          simp only [Option.bind_eq_bind, Option.some_bind] at h
          refine ih t₁ t' j h ?_
          rcases authorStep_shape hstep with rfl | ⟨⟨x, rfl⟩, hsome⟩
          · exact habs
          · have hji : j ≠ i := by
              rintro rfl
              rw [habs] at hsome
              cases hsome
            rw [aget?_aset_ne t i j x hji]
            exact habs

theorem aget?_addTags_none :
    ∀ (rows : List (Nat × Str)) (t t' : TMap) (j : Nat),
      addTags t rows = some t' → aget? t j = none → aget? t' j = none := by
  intro rows
  induction rows with
  | nil =>
      intro t t' j h habs
      cases h
      exact habs
  | cons r rest ih =>
      obtain ⟨i, tag⟩ := r
      intro t t' j h habs
      rw [addTags] at h
      split at h
      next heq =>
        simp only [Option.some_bind] at h
        exact ih t t' j h habs
      next e heq =>
        have hji : j ≠ i := by
          rintro rfl
          rw [habs] at heq
          cases heq
        split at h
        · simp only [Option.some_bind] at h
          refine ih _ t' j h ?_
          rw [aget?_aset_ne t i j _ hji]
          exact habs
        · simp only [Option.none_bind] at h
          cases h

theorem addAttachments_none :
    ∀ (rows : List (Str × Nat × Str)) (t : TMap) (key : Str) (pid : Nat) (path : Str),
      (key, pid, path) ∈ rows → aget? t pid = none →
      addAttachments t rows = none := by
  intro rows
  induction rows with
  | nil =>
      intro t k p a h _
      cases h
  | cons r rest ih =>
      obtain ⟨k0, p0, a0⟩ := r
      intro t k p a hmem habs
      rw [addAttachments]
      cases h0 : aget? t p0 with
      | none => rfl
      | some e =>
          rcases List.mem_cons.mp hmem with heq | hmem'
          · obtain ⟨h1, h2, h3⟩ : k = k0 ∧ p = p0 ∧ a = a0 := by
              simpa [Prod.ext_iff] using heq
            subst h2
            rw [habs] at h0
            cases h0
          · have hne : p ≠ p0 := by
              rintro rfl
              rw [habs] at h0
              cases h0
            refine ih _ k p a hmem' ?_
            rw [aget?_aset_ne t p0 p _ hne]
            exact habs

/-- C10: the load cycle fails with the uncaught `KeyError` of
`_add_attachments` (embedded: `load` returns `none`) whenever the
attachments query returns a row whose parent item id has no field/value
rows — unlike every other merge pass, `_add_attachments` writes to
`self._t[pId]` without first checking that the id is present. -/
theorem C10_attachment_keyerror (cite w : Str) (db : Db) (key : Str) (pid : Nat) (path : Str)
    (hmem : (key, pid, path) ∈ db.attachmentRows)
    (hnofields : pid ∉ db.fieldRows.map (fun r => r.1)) :
    load cite w db = none := by
  unfold load
  have h1 : aget? (addMostFields [] db.fieldRows) pid = none :=
    aget?_addMostFields_none db.fieldRows [] pid rfl hnofields
  have h2 : aget? (addCollection (addMostFields [] db.fieldRows) db.collectionRows) pid = none :=
    aget?_addCollection_none db.collectionRows _ pid h1
  cases h3 : addAuthors (addCollection (addMostFields [] db.fieldRows) db.collectionRows)
      db.creatorRows with
  | none => simp [h3]
  | some t3 =>
      have h3' : aget? t3 pid = none := aget?_addAuthors_none db.creatorRows _ t3 pid h3 h2
      have h4 : aget? (addType t3 db.typeRows) pid = none :=
        aget?_addType_none db.typeRows t3 pid h3'
      have h5 : aget? (addNote (addType t3 db.typeRows) db.noteRows) pid = none :=
        aget?_addNote_none db.noteRows _ pid h4
      cases h6 : addTags (addNote (addType t3 db.typeRows) db.noteRows) db.tagRows with
      | none => simp [h3, h6]
      | some t6 =>
          have h6' : aget? t6 pid = none := aget?_addTags_none db.tagRows _ t6 pid h6 h5
          have h7 : addAttachments t6 db.attachmentRows = none :=
            addAttachments_none db.attachmentRows t6 key pid path hmem h6'
          simp [h3, h6, h7]

theorem C10_attachment_keyerror_witness :
    load defaultCite defaultBanned c10Db = none :=
  C10_attachment_keyerror defaultCite defaultBanned c10Db ("K".data) 5 ("p".data)
    (by decide) (by decide)

theorem addCollection_collOf :
    ∀ (rows : List (Nat × Str)) (t : TMap) (i : Nat) (e₀ : Dict),
      aget? t i = some e₀ →
      ∃ e₁, aget? (addCollection t rows) i = some e₁ ∧
        aget? e₁ kCollection =
          (match lastColl rows i with
           | some r => some (Val.str r.2)
           | none => aget? e₀ kCollection) := by
  intro rows
  induction rows with
  | nil =>
      intro t i e₀ h
      exact ⟨e₀, h, by simp [lastColl]⟩
  | cons r rest ih =>
      obtain ⟨j, nm⟩ := r
      intro t i e₀ h
      rw [addCollection]
      by_cases hji : j = i
      · subst hji
        rw [h]
        obtain ⟨e₁, he₁, hcoll⟩ :=
          ih (aset t j (aset e₀ kCollection (Val.str nm))) j
            (aset e₀ kCollection (Val.str nm)) (aget?_aset_self t j _)
        refine ⟨e₁, he₁, ?_⟩
        rw [hcoll]
        cases hfilter : rest.filter (fun r => r.1 = j) with
        | nil =>
            have hrest : lastColl rest j = none := by simp [lastColl, hfilter]
            have hcons : lastColl ((j, nm) :: rest) j = some (j, nm) := by
              simp [lastColl, hfilter]
            rw [hrest, hcons, aget?_aset_self]
        | cons y ys =>
            have hrest : lastColl rest j = (y :: ys).getLast? := by
              simp [lastColl, hfilter]
            have hcons : lastColl ((j, nm) :: rest) j = (y :: ys).getLast? := by
              simp only [lastColl, List.filter_cons]
              rw [if_pos (by simp), hfilter]
              exact List.getLast?_cons_cons
            rw [hrest, hcons, List.getLast?_eq_getLast_of_ne_nil (List.cons_ne_nil y ys)]
      · cases hj : aget? t j with
        | none =>
            have hlc : lastColl ((j, nm) :: rest) i = lastColl rest i := by
              simp only [lastColl, List.filter_cons]
              rw [if_neg (by simp [hji])]
            rw [hlc]
            exact ih t i e₀ h
        | some ej =>
            have h' : aget? (aset t j (aset ej kCollection (Val.str nm))) i = some e₀ := by
              rw [aget?_aset_ne t j i _ (Ne.symm hji)]
              exact h
            obtain ⟨e₁, he₁, hcoll⟩ := ih _ i e₀ h'
            refine ⟨e₁, he₁, ?_⟩
            rw [hcoll]
            have : lastColl ((j, nm) :: rest) i = lastColl rest i := by
              simp only [lastColl, List.filter_cons]
              rw [if_neg (by simp [hji])]
            rw [this]

theorem lastColl_not_toRead (rows : List (Nat × Str)) (i : Nat) (c : Str)
    (hsorted : rows.Pairwise colRowLe) (hmem : (i, c) ∈ rows) (hc : c ≠ toReadStr) :
    ∃ r, lastColl rows i = some r ∧ r.2 ≠ toReadStr := by
  have hmemf : (i, c) ∈ rows.filter (fun r => r.1 = i) :=
    List.mem_filter.mpr ⟨hmem, by simp⟩
  have hpw : (rows.filter (fun r => r.1 = i)).Pairwise colRowLe :=
    hsorted.filter _
  have hne : rows.filter (fun r => r.1 = i) ≠ [] := List.ne_nil_of_mem hmemf
  refine ⟨(rows.filter (fun r => r.1 = i)).getLast hne,
    by simp [lastColl, List.getLast?_eq_getLast_of_ne_nil hne], ?_⟩
  intro hLtoRead
  have hdecomp :
      (rows.filter (fun r => r.1 = i)).dropLast ++
        [(rows.filter (fun r => r.1 = i)).getLast hne] = rows.filter (fun r => r.1 = i) :=
    List.dropLast_append_getLast hne
  rcases List.mem_append.mp (by rw [hdecomp]; exact hmemf) with hin | hin
  · have hpw' :
        ((rows.filter (fun r => r.1 = i)).dropLast ++
          [(rows.filter (fun r => r.1 = i)).getLast hne]).Pairwise colRowLe := by
      rw [hdecomp]; exact hpw
    have hle : colRowLe (i, c) ((rows.filter (fun r => r.1 = i)).getLast hne) := by
      rcases List.pairwise_append.mp hpw' with ⟨-, -, hrel⟩
      exact hrel _ hin _ (by simp)
    rcases hle with hlt | ⟨heq, -⟩
    · rw [colKey, colKey, if_neg hc, if_pos hLtoRead] at hlt
      exact absurd hlt (by decide)
    · rw [colKey, colKey, if_neg hc, if_pos hLtoRead] at heq
      exact absurd heq (by decide)
  · have heq : (i, c) = (rows.filter (fun r => r.1 = i)).getLast hne := by
      simpa using hin
    have hc2 : c = ((rows.filter (fun r => r.1 = i)).getLast hne).2 :=
      congrArg Prod.snd heq
    exact hc (hc2.trans hLtoRead)

/-- C8: with the membership rows ordered as the query orders them
(`ORDER by collectionName != "To Read", collectionName`, embedded as a
`Pairwise colRowLe` hypothesis), the last write wins: whenever an item has
at least one membership in a collection not literally named `To Read`, the
`collection` value retained for it by `_add_collection` is a collection
name different from `To Read`; `To Read` can only be stored when it is the
item's sole collection. -/
theorem C8_toRead_tiebreak (rows : List (Nat × Str)) (t : TMap) (i : Nat) (e₀ : Dict)
    (c : Str) (hsorted : rows.Pairwise colRowLe) (hpresent : aget? t i = some e₀)
    (hmem : (i, c) ∈ rows) (hc : c ≠ toReadStr) :
    ∃ e₁ nm, aget? (addCollection t rows) i = some e₁ ∧
      aget? e₁ kCollection = some (Val.str nm) ∧ nm ≠ toReadStr := by
  obtain ⟨e₁, he₁, hcoll⟩ := addCollection_collOf rows t i e₀ hpresent
  obtain ⟨L, hL, hLne⟩ := lastColl_not_toRead rows i c hsorted hmem hc
  refine ⟨e₁, L.2, he₁, ?_, hLne⟩
  rw [hcoll, hL]

theorem C8_toRead_tiebreak_witness :
    ∃ e₁ nm,
      aget? (addCollection [(1, seedEntry ("Z".data))] [(1, toReadStr), (1, "A".data)]) 1 =
        some e₁ ∧
      aget? e₁ kCollection = some (Val.str nm) ∧ nm ≠ toReadStr :=
  C8_toRead_tiebreak [(1, toReadStr), (1, "A".data)] [(1, seedEntry ("Z".data))] 1
    (seedEntry ("Z".data)) ("A".data) (by decide) (by decide) (by decide) (by decide)

theorem buildKey_default_underscore (ln y tw : Str) :
    '_' ∈ buildKey defaultCite ln y tw := by
  have h0 : '_' ∈ defaultCite := by decide
  have h1 := mem_pyReplaceAll ("{author}".data) (pyLower ln) h0 (by decide)
  have h2 := mem_pyReplaceAll ("{Author}".data) (pyTitle ln) h1 (by decide)
  have h3 := mem_pyReplaceAll ("{year}".data) (stripTwoDigits y) h2 (by decide)
  have h4 := mem_pyReplaceAll ("{Year}".data) y h3 (by decide)
  have h5 := mem_pyReplaceAll ("{title}".data) (pyLower tw) h4 (by decide)
  have h6 := mem_pyReplaceAll ("{Title}".data) (pyTitle tw) h5 (by decide)
  exact List.mem_filter.mpr ⟨h6, by decide⟩

theorem buildKey_no_space (cite ln y tw : Str) : ' ' ∉ buildKey cite ln y tw := by
  intro hmem
  exact absurd (List.mem_filter.mp hmem).2 (by decide)

theorem calcEntry_citekey {cite w : Str} {e e' : Dict} (h : calcEntry cite w e = some e') :
    ∃ ln y tw, aget? e' kCitekey = some (Val.str (buildKey cite ln y tw)) := by
  unfold calcEntry at h
  cases h1 : yearOf? e with
  | none => rw [h1] at h; exact Option.noConfusion h
  | some year =>
      rw [h1] at h
      simp only [Option.bind_eq_bind, Option.some_bind] at h
      cases h2 : titleOf? w (aset e kYear (Val.str year)) with
      | none => rw [h2] at h; exact Option.noConfusion h
      | some p =>
          rw [h2] at h
          simp only [Option.bind_eq_bind, Option.some_bind] at h
          cases h3 : lastnameOf? p.1 with
          | none => rw [h3] at h; exact Option.noConfusion h
          | some ln =>
              rw [h3] at h
              simp only [Option.bind_eq_bind, Option.some_bind] at h
              refine ⟨filterWord ln, year, filterWord p.2, ?_⟩
              rw [← Option.some.inj h]
              exact aget?_aset_self p.1 kCitekey _

theorem calcEntry_good_citekey {w : Str} {e e' : Dict}
    (h : calcEntry defaultCite w e = some e') :
    ∃ k, aget? e' kCitekey = some (Val.str k) ∧ k ≠ [] ∧ ' ' ∉ k := by
  obtain ⟨ln, y, tw, hk⟩ := calcEntry_citekey h
  exact ⟨buildKey defaultCite ln y tw, hk,
    List.ne_nil_of_mem (buildKey_default_underscore ln y tw),
    buildKey_no_space defaultCite ln y tw⟩

theorem calcCitekeys_mem (cite w : Str) :
    ∀ (t t' : TMap), calcCitekeys cite w t = some t' →
      ∀ (i : Nat) (e' : Dict), (i, e') ∈ t' →
        ∃ e, (i, e) ∈ t ∧ calcEntry cite w e = some e' := by
  intro t
  induction t with
  | nil =>
      intro t' h i e' hmem
      cases h
      cases hmem
  | cons p rest ih =>
      obtain ⟨j, ej⟩ := p
      intro t' h i e' hmem
      rw [calcCitekeys] at h
      cases h1 : calcEntry cite w ej with
      | none => rw [h1] at h; exact Option.noConfusion h
      | some ej' =>
          rw [h1] at h
          simp only [Option.bind_eq_bind, Option.some_bind] at h
          cases h2 : calcCitekeys cite w rest with
          | none => rw [h2] at h; exact Option.noConfusion h
          | some rest' =>
              rw [h2] at h
              simp only [Option.bind_eq_bind, Option.some_bind] at h
              rw [← Option.some.inj h] at hmem
              rcases List.mem_cons.mp hmem with heq | hmem'
              · obtain ⟨hji, hej⟩ : i = j ∧ e' = ej' := by
                  simpa [Prod.ext_iff] using heq
                subst hji
                subst hej
                exact ⟨ej, List.mem_cons_self _ _, h1⟩
              · obtain ⟨e, hmem₀, hcalc⟩ := ih rest' h2 i e' hmem'
                exact ⟨e, List.mem_cons_of_mem _ hmem₀, hcalc⟩

theorem eAdd_entryProp {Q : Dict → Prop} {em : EMap} {c : Val} {id : Str} {e : Dict}
    (hem : entryProp Q em) (he : Q e) : entryProp Q (eAdd em c id e) := by
  intro c' ents i' e'' hc' hi'
  unfold eAdd at hc'
  rcases mem_aset hc' with heq | hmem
  · obtain ⟨hc'', hents⟩ : c' = c ∧ ents = aset ((aget? em c).getD []) id e := by
      simpa [Prod.ext_iff] using heq
    subst hents
    rcases mem_aset hi' with heq' | hmem'
    · obtain ⟨-, he''⟩ : i' = id ∧ e'' = e := by simpa [Prod.ext_iff] using heq'
      subst he''
      exact he
    · cases hg : aget? em c with
      | none =>
          rw [hg] at hmem'
          simp at hmem'
      | some ents₀ =>
          rw [hg] at hmem'
          exact hem c ents₀ i' e'' (mem_of_aget? hg) (by simpa using hmem')
  · exact hem c' ents i' e'' hmem hi'

theorem separate_entries (Q : Dict → Prop) (del : List Nat) :
    ∀ (t : TMap) (em₀ em : EMap),
      separate del t em₀ = some em →
      (∀ (i : Nat) (e : Dict), (i, e) ∈ t → ∀ al, Q (aset e kAlastnm (Val.str al))) →
      entryProp Q em₀ → entryProp Q em := by
  intro t
  induction t with
  | nil =>
      intro em₀ em h hQ h₀
      cases h
      exact h₀
  | cons p rest ih =>
      obtain ⟨i, e⟩ := p
      intro em₀ em h hQ h₀
      have hQ' : ∀ (i' : Nat) (e' : Dict), (i', e') ∈ rest →
          ∀ al, Q (aset e' kAlastnm (Val.str al)) :=
        fun i' e' hm al => hQ i' e' (List.mem_cons_of_mem _ hm) al
      rw [separate] at h
      by_cases hdel : del.contains i
      · rw [if_pos hdel] at h
        exact ih em₀ em h hQ' h₀
      · rw [if_neg hdel] at h
        split at h <;>
          first
            | exact Option.noConfusion h
            | exact ih em₀ em h hQ' h₀
            | (split at h <;>
                first
                  | exact Option.noConfusion h
                  | exact ih em₀ em h hQ' h₀
                  | (split at h <;>
                      first
                        | exact Option.noConfusion h
                        | exact ih _ em h hQ'
                            (eAdd_entryProp h₀ (hQ i e (List.mem_cons_self _ _) _))
                        | (split at h <;>
                            first
                              | exact Option.noConfusion h
                              | exact ih _ em h hQ'
                                  (eAdd_entryProp h₀
                                    (hQ i e (List.mem_cons_self _ _) _)))))

/-- C7: every entry stored in CollectionIndex by a load cycle under the
default citation-key template `{Author}_{Year}` carries a `citekey` that is
a non-empty string with no space characters, whatever the database contents
(missing date, title or author included): the template's underscore
survives every placeholder substitution, and the final pass removes every
space. -/
theorem C7_citekey_nonempty_nospace (w : Str) (db : Db) (em : EMap)
    (h : load defaultCite w db = some em) :
    entryProp (fun e => ∃ k, aget? e kCitekey = some (Val.str k) ∧ k ≠ [] ∧ ' ' ∉ k) em := by
  unfold load at h
  simp only [Option.bind_eq_bind] at h
  cases h3 : addAuthors (addCollection (addMostFields [] db.fieldRows) db.collectionRows)
      db.creatorRows with
  | none => rw [h3] at h; exact absurd h (by simp)
  | some t3 =>
      rw [h3] at h
      simp only [Option.bind_eq_bind, Option.some_bind] at h
      cases h6 : addTags (addNote (addType t3 db.typeRows) db.noteRows) db.tagRows with
      | none => rw [h6] at h; exact absurd h (by simp)
      | some t6 =>
          rw [h6] at h
          simp only [Option.bind_eq_bind, Option.some_bind] at h
          cases h7 : addAttachments t6 db.attachmentRows with
          | none => rw [h7] at h; exact absurd h (by simp)
          | some t7 =>
              rw [h7] at h
              simp only [Option.bind_eq_bind, Option.some_bind] at h
              cases h8 : calcCitekeys defaultCite w t7 with
              | none => rw [h8] at h; exact absurd h (by simp)
              | some t8 =>
                  rw [h8] at h
                  simp only [Option.bind_eq_bind, Option.some_bind] at h
                  refine separate_entries _ db.deletedRows t8 [] em h ?_ ?_
                  · intro i e hm al
                    obtain ⟨e₀, -, hcalc⟩ := calcCitekeys_mem defaultCite w t7 t8 h8 i e hm
                    obtain ⟨k, hk, hne, hsp⟩ := calcEntry_good_citekey hcalc
                    refine ⟨k, ?_, hne, hsp⟩
                    rw [aget?_aset_ne e kAlastnm kCitekey (Val.str al) (by decide)]
                    exact hk
                  · intro c ents i e hc hi
                    cases hc

theorem C7_citekey_nonempty_nospace_witness :
    ∃ k, aget? entryA kCitekey = some (Val.str k) ∧ k ≠ [] ∧ ' ' ∉ k :=
  C7_citekey_nonempty_nospace defaultBanned dbA emA (by decide)
    (Val.str ("A".data)) [("1".data, entryA)] ("1".data) entryA (by decide) (by decide)

end Zotero
